import Mathlib

/-!
Shallow embedding of `scripts/scrape.py`, a package-metadata scraper:
staleness-based selection of package names, per-package fetching with
soft/hard failure classification, HTML field extraction, and a per-name
replace merge into a persisted store.  Network transport and the HTML
parsing library are external collaborators; documents are modelled at the
query level (the node/attribute accesses the code performs).
-/

namespace Scrape

/-- Package names, `type Name = str` in the source. -/
abbrev Name := String

/-- Timestamps formatted `"%Y-%m-%d %H:%M:%S"`; the code compares them as
strings (lexicographically by code point), which we mirror with `lexLe`. -/
abbrev Timestamp := String

/-- Lexicographic `<=` on code-point lists: Python's `str.__le__`. -/
def lexLe : List Char → List Char → Bool
  | [], _ => true
  | _ :: _, [] => false
  | a :: as, b :: bs =>
    if a.toNat < b.toNat then true
    else if b.toNat < a.toNat then false
    else lexLe as bs

/-- Python's `s <= t` on strings. -/
def tsLe (a b : String) : Bool := lexLe a.toList b.toList

/-- Python `str.replace(old, new)` where `old` is a single character
(the two uses in the source: `"T" -> " "` and `"," -> ""`). -/
def replaceChar (s : String) (c : Char) (r : String) : String :=
  String.mk (s.toList.foldr (fun x acc => if x = c then r.toList ++ acc else x :: acc) [])

/-- Python `str.strip()` with no argument (ASCII whitespace model). -/
def pyStrip (s : String) : String :=
  String.mk
    (((s.toList.dropWhile Char.isWhitespace).reverse.dropWhile Char.isWhitespace).reverse)

/-- `PackageInfo` (`TypedDict, total=False`): optional keys are modelled as
`Option` fields where `none` means the key is absent from the dict.
`first_seen` can be present with value `None`, hence `Option (Option String)`.
`name` and `last_scraped` are `Required`. -/
structure PackageInfo where
  name : Name
  first_seen : Option (Option String) := none
  total_installs : Option Int := none
  win_installs : Option Int := none
  mac_installs : Option Int := none
  linux_installs : Option Int := none
  last_scraped : Timestamp
  fail_reason : Option String := none
deriving DecidableEq, Repr

/-- `OutputFormat = dict[Name, PackageInfo]`, the persisted store, modelled
extensionally as a partial map. -/
def Store := Name → Option PackageInfo

/-- The empty store (`{}`; what `load_existing_data` yields for a missing file). -/
def emptyStore : Store := fun _ => none

/-- The default in `existing_data.get(name, {}).get("last_scraped", "1970-01-01 00:00:00")`. -/
def epochSentinel : Timestamp := "1970-01-01 00:00:00"

/-- The age key of a name: `existing_data.get(name, {}).get("last_scraped", sentinel)`.
A present record always has a `last_scraped` key (it is `Required`). -/
def ageKey (existing_data : Store) (n : Name) : Timestamp :=
  match existing_data n with
  | none => epochSentinel
  | some r => r.last_scraped

/-- `packages_sorted_by_age` (scrape.py:109-119): keep the names whose age key
is `<= if_older_than`, then sort ascending by age key.  Python's `sorted` is a
stable sort, which `List.insertionSort` (insert-before-on-`≤`) realises. -/
def packages_sorted_by_age (input_packages : List Name) (existing_data : Store)
    (if_older_than : Timestamp) : List Name :=
  List.insertionSort (fun a b => tsLe (ageKey existing_data a) (ageKey existing_data b) = true)
    (input_packages.filter (fun n => tsLe (ageKey existing_data n) if_older_than))

/-- Python's `l[:k]` for `k : int | None` (scrape.py:57, `to_scrape[:limit]`):
`None` keeps the whole list, a nonnegative `k` keeps the first `k` elements,
a negative `k` drops the last `-k` elements. -/
def pySliceTo (l : List Name) : Option Int → List Name
  | none => l
  | some k => if 0 ≤ k then l.take k.toNat else l.take (l.length - (-k).toNat)

/-- Lines 56-57 of `main`: select and truncate the worklist. -/
def selectToScrape (input_packages : List Name) (existing_data : Store)
    (if_older_than : Timestamp) (limit : Option Int) : List Name :=
  pySliceTo (packages_sorted_by_age input_packages existing_data if_older_than) limit

/-! ### Document model

BeautifulSoup is external; the code touches a document only through the
queries below, so a document is modelled as the answers to those queries. -/

/-- A `span` element, carrying its `title` attribute if present. -/
structure Span where
  title : Option String := none
deriving DecidableEq, Repr

/-- One direct `li` child of the installs `ul`, as the code queries it:
`label_text` is the stripped-later text of the first `span` with class
`total` or `platform` (absent if no such span), and `sibling_title` is that
span's next sibling `span` (absent if none) with its `title` attribute. -/
structure InstallEntry where
  label_text : Option String := none
  sibling_title : Option (Option String) := none
deriving DecidableEq, Repr

/-- A fetched page, at the granularity of the two selectors the code runs:
`#details > ul > li.first_seen > span` and `#installs > ul.totals`. -/
structure Document where
  first_seen_span : Option Span := none
  installs_ul : Option (List InstallEntry) := none
deriving DecidableEq, Repr

/-- What `session.get` gave back for one package: either an exception before
a response completed (timeout, connection error, ...) or a completed response
with a status code and a body. -/
inductive FetchResult where
  | exn
  | response (status : Nat) (body : Document)
deriving DecidableEq, Repr

/-- Python's `str.rstrip(c)`: remove every trailing occurrence of `c`. -/
def rstripChar (s : String) (c : Char) : String :=
  String.mk ((s.toList.reverse.dropWhile (fun x => x = c)).reverse)

/-- `parse_first_seen` (scrape.py:157-163): read the `title` attribute,
return `None` if it is missing or empty (`if not t`), else replace every
`"T"` with a space and strip trailing `"Z"`s. -/
def parse_first_seen (span : Span) : Option String :=
  match span.title with
  | none => none
  | some t => if t = "" then none else some (rstripChar (replaceChar t 'T' " ") 'Z')

/-- Digit tail of CPython `int(str, base 10)`: ASCII digits with single
underscores allowed between digits. `acc` is the value of the digits read. -/
def pyDigitsGo : Nat → List Char → Option Nat
  | acc, [] => some acc
  | acc, c :: cs =>
    if c = '_' then
      match cs with
      | [] => none
      | d :: cs2 =>
        if d.isDigit then pyDigitsGo (acc * 10 + (d.toNat - 48)) cs2 else none
    else if c.isDigit then pyDigitsGo (acc * 10 + (c.toNat - 48)) cs
    else none

/-- Nonempty digit run for `pyInt?`. -/
def pyIntDigits : List Char → Option Nat
  | [] => none
  | c :: cs => if c.isDigit then pyDigitsGo (c.toNat - 48) cs else none

/-- Model of CPython `int(s)` for base-10 ASCII input: surrounding whitespace
stripped, optional sign, then digits with single underscores between digits;
`none` models the `ValueError` that the code catches. -/
def pyInt? (s : String) : Option Int :=
  match (pyStrip s).toList with
  | [] => none
  | c :: cs =>
    if c = '+' then (pyIntDigits cs).map (fun n => (n : Int))
    else if c = '-' then (pyIntDigits cs).map (fun n => -(n : Int))
    else (pyIntDigits (c :: cs)).map (fun n => (n : Int))

/-- The install-count fields accumulated by `parse_installs` (the `installs`
dict); `none` means the key is absent. -/
structure Installs where
  total_installs : Option Int := none
  win_installs : Option Int := none
  mac_installs : Option Int := none
  linux_installs : Option Int := none
deriving DecidableEq, Repr

/-- One iteration of the `for li in ul.find_all("li", recursive=False)` loop
in `parse_installs` (scrape.py:170-194): skip when the label span or its
sibling is missing, parse the sibling's `title` attribute (default `"0"`)
with commas removed, defaulting the count to 0 on failure, then dispatch on
the stripped label text; unrecognized labels change nothing. -/
def parse_installs_step (installs : Installs) (li : InstallEntry) : Installs :=
  match li.label_text with
  | none => installs
  | some raw =>
    let label := pyStrip raw
    match li.sibling_title with
    | none => installs
    | some titleAttr =>
      let count : Int := (pyInt? (replaceChar (titleAttr.getD "0") ',' "")).getD 0
      if label = "Total" then { installs with total_installs := some count }
      else if label = "Win" then { installs with win_installs := some count }
      else if label = "Mac" then { installs with mac_installs := some count }
      else if label = "Linux" then { installs with linux_installs := some count }
      else installs

/-- `parse_installs` (scrape.py:166-195) over the direct `li` children. -/
def parse_installs (lis : List InstallEntry) : Installs :=
  lis.foldl parse_installs_step {}

/-- `fetch_package` (scrape.py:122-154).  A transport exception yields no
record (`return None`).  A non-200 response yields the soft-failure record
with only `name`, `last_scraped`, `fail_reason`.  A 200 response is parsed:
`first_seen` is always a present key (possibly null), and the installs dict
is spread into the record so absent install keys stay absent. -/
def fetch_package (resp : FetchResult) (name : Name) (now : Timestamp) :
    Option PackageInfo :=
  match resp with
  | .exn => none
  | .response status body =>
    if status ≠ 200 then
      some { name := name, last_scraped := now,
             fail_reason := some ("HTTP " ++ toString status) }
    else
      let first_seen : Option String :=
        match body.first_seen_span with
        | some span => parse_first_seen span
        | none => none
      let installs : Installs :=
        match body.installs_ul with
        | some ul => parse_installs ul
        | none => {}
      some { name := name
             first_seen := some first_seen
             total_installs := installs.total_installs
             win_installs := installs.win_installs
             mac_installs := installs.mac_installs
             linux_installs := installs.linux_installs
             last_scraped := now }

/-- `existing_data[res["name"]] = res` for one record. -/
def mergeOne (st : Store) (r : PackageInfo) : Store :=
  fun n => if n = r.name then some r else st n

/-- The merge loop of `main` (scrape.py:87-90) over the collected results. -/
def mergeResults (st : Store) (results : List PackageInfo) : Store :=
  results.foldl mergeOne st

/-- The decision flow of `main` (scrape.py:39-99) after I/O is abstracted:
`registry = none` models the registry-load exception (early `return`, no
write).  With no `--if-older-than`, the cutoff is `now` itself
(`now - timedelta(hours=0)`); with a threshold, `if_older_than_` is the
computed cutoff string.  An empty worklist returns early — without
persisting — only when a threshold was given (scrape.py:58-62).  `fetch`
gives each name's transport outcome; results are the non-`None` returns of
`fetch_package`, merged into the prior store, which is then persisted.  The
returned value is the store written to disk, `none` if no write happened. -/
def mainModel (registry : Option (List Name)) (existing : Store) (now : Timestamp)
    (if_older_than : Option Timestamp) (limit : Option Int)
    (fetch : Name → FetchResult) : Option Store :=
  match registry with
  | none => none
  | some input_names =>
    let cutoff := if_older_than.getD now
    let to_scrape := selectToScrape input_names existing cutoff limit
    if to_scrape = [] ∧ if_older_than.isSome then none
    else
      let results := to_scrape.filterMap (fun n => fetch_package (fetch n) n now)
      some (mergeResults existing results)

/-! ### Concrete fixtures used in witnesses and counterexamples -/

/-- A prior store entry for item `Y` that carries install counts. -/
def recY : PackageInfo :=
  { name := "Y", first_seen := some (some "2020-01-01 00:00:05")
    total_installs := some 500, last_scraped := "2025-01-01 00:00:00" }

/-- A store holding only `recY` at key `Y`. -/
def storeY : Store := fun n => if n = "Y" then some recY else none

/-- The soft-failure record a 404 for `Y` produces. -/
def softY : PackageInfo :=
  { name := "Y", last_scraped := "2025-10-12 00:00:00", fail_reason := some "HTTP 404" }

/-- A store whose only record was last scraped at a timestamp later than the
run timestamp `2025-10-12 00:00:00` used in the counterexamples. -/
def storeFutureA : Store :=
  fun n => if n = "A" then some { name := "A", last_scraped := "9999-01-01 00:00:00" } else none

/-- A store whose only record was scraped recently (later than the cutoff
`2020-01-01 00:00:00` used in the C4 counterexample). -/
def storeRecentA : Store :=
  fun n => if n = "A" then some { name := "A", last_scraped := "2025-01-01 00:00:00" } else none

/-- A store for the C6 witness: `B` has a real (post-epoch) timestamp, `A` is
absent. -/
def storeB : Store :=
  fun n => if n = "B" then some { name := "B", last_scraped := "2025-01-01 00:00:00" } else none

/-! ### Helper lemmas -/

theorem lexLe_refl : ∀ as, lexLe as as = true
  | [] => rfl
  | a :: as => by simp [lexLe, lexLe_refl as]

theorem lexLe_total : ∀ as bs, lexLe as bs = true ∨ lexLe bs as = true
  | [], _ => Or.inl rfl
  | _ :: _, [] => Or.inr rfl
  | a :: as, b :: bs => by
    rcases Nat.lt_trichotomy a.toNat b.toNat with h | h | h
    · left; simp [lexLe, h]
    · simp only [lexLe, h, lt_self_iff_false, if_false]
      exact lexLe_total as bs
    · right; simp [lexLe, h]

theorem lexLe_trans : ∀ as bs cs, lexLe as bs = true → lexLe bs cs = true →
    lexLe as cs = true
  | [], _, _, _, _ => rfl
  | _ :: _, [], _, h1, _ => by simp [lexLe] at h1
  | _ :: _, _ :: _, [], _, h2 => by simp [lexLe] at h2
  | a :: as, b :: bs, c :: cs, h1, h2 => by
    simp only [lexLe] at h1 h2 ⊢
    split_ifs at h1 h2 ⊢ <;>
      first
        | rfl
        | exact Bool.noConfusion h1
        | exact Bool.noConfusion h2
        | exact lexLe_trans as bs cs h1 h2
        | omega

theorem tsLe_refl (a : String) : tsLe a a = true := lexLe_refl _

theorem tsLe_total (a b : String) : tsLe a b = true ∨ tsLe b a = true :=
  lexLe_total _ _

theorem tsLe_trans {a b c : String} (h1 : tsLe a b = true) (h2 : tsLe b c = true) :
    tsLe a c = true := lexLe_trans _ _ _ h1 h2

theorem mergeResults_apply_not_mem :
    ∀ (results : List PackageInfo) (st : Store) (n : Name),
      (∀ r ∈ results, r.name ≠ n) → mergeResults st results n = st n
  | [], _, _, _ => rfl
  | r :: rs, st, n, h => by
    have hr : r.name ≠ n := h r (List.mem_cons_self r rs)
    have htail := mergeResults_apply_not_mem rs (mergeOne st r) n
      (fun x hx => h x (List.mem_cons_of_mem r hx))
    simpa [mergeResults, mergeOne, Ne.symm hr] using htail

theorem mergeResults_apply_mem :
    ∀ (results : List PackageInfo) (st : Store) (r : PackageInfo),
      r ∈ results → (results.map PackageInfo.name).Nodup →
      mergeResults st results r.name = some r
  | [], _, _, hr, _ => absurd hr (List.not_mem_nil _)
  | x :: rs, st, r, hr, hnd => by
    simp only [List.map_cons, List.nodup_cons] at hnd
    rcases List.mem_cons.mp hr with rfl | hmem
    · have hnames : ∀ y ∈ rs, y.name ≠ r.name := fun y hy heq =>
        hnd.1 (heq ▸ List.mem_map_of_mem PackageInfo.name hy)
      have := mergeResults_apply_not_mem rs (mergeOne st r) r.name hnames
      simpa [mergeResults, mergeOne] using this
    · exact mergeResults_apply_mem rs (mergeOne st x) r hmem hnd.2

theorem fetch_package_exn (name : Name) (now : Timestamp) :
    fetch_package .exn name now = none := rfl

theorem fetch_package_shape (resp : FetchResult) (name : Name) (now : Timestamp)
    (r : PackageInfo) (h : fetch_package resp name now = some r) :
    r.name = name ∧ r.last_scraped = now ∧
      ((r.fail_reason = none ∧ r.first_seen.isSome = true) ∨
       (r.fail_reason.isSome = true ∧ r.first_seen = none ∧ r.total_installs = none ∧
        r.win_installs = none ∧ r.mac_installs = none ∧ r.linux_installs = none)) := by
  cases resp with
  | exn => exact absurd h (by simp [fetch_package])
  | response status body =>
    by_cases hs : status ≠ 200
    · simp only [fetch_package, if_pos hs, Option.some.injEq] at h
      subst h
      simp
    · simp only [fetch_package, if_neg hs, Option.some.injEq] at h
      subst h
      simp

theorem mem_packages_sorted_by_age (input : List Name) (st : Store)
    (cutoff : Timestamp) (n : Name) :
    n ∈ packages_sorted_by_age input st cutoff ↔
      n ∈ input ∧ tsLe (ageKey st n) cutoff = true := by
  unfold packages_sorted_by_age
  rw [List.mem_insertionSort, List.mem_filter]

theorem sorted_packages_sorted_by_age (input : List Name) (st : Store)
    (cutoff : Timestamp) :
    (packages_sorted_by_age input st cutoff).Sorted
      (fun a b => tsLe (ageKey st a) (ageKey st b) = true) := by
  haveI : IsTotal Name (fun a b => tsLe (ageKey st a) (ageKey st b) = true) :=
    ⟨fun a b => tsLe_total _ _⟩
  haveI : IsTrans Name (fun a b => tsLe (ageKey st a) (ageKey st b) = true) :=
    ⟨fun _ _ _ => tsLe_trans⟩
  exact List.sorted_insertionSort _ _

theorem pySliceTo_sublist (l : List Name) (k : Option Int) : List.Sublist (pySliceTo l k) l := by
  cases k with
  | none => exact List.Sublist.refl l
  | some k =>
    simp only [pySliceTo]
    split_ifs <;> exact List.take_sublist _ _

theorem selectToScrape_sublist (input : List Name) (st : Store) (cutoff : Timestamp)
    (limit : Option Int) :
    List.Sublist (selectToScrape input st cutoff limit) (packages_sorted_by_age input st cutoff) :=
  pySliceTo_sublist _ _

theorem mainModel_some (input : List Name) (existing : Store) (now : Timestamp)
    (ifo : Option Timestamp) (limit : Option Int) (fetch : Name → FetchResult)
    (hcond : ¬ (selectToScrape input existing (ifo.getD now) limit = [] ∧ ifo.isSome = true)) :
    mainModel (some input) existing now ifo limit fetch =
      some (mergeResults existing
        ((selectToScrape input existing (ifo.getD now) limit).filterMap
          (fun n => fetch_package (fetch n) n now))) := by
  simp only [mainModel, if_neg hcond]

theorem mainModel_early_return (input : List Name) (existing : Store) (now : Timestamp)
    (ifo : Option Timestamp) (limit : Option Int) (fetch : Name → FetchResult)
    (hcond : selectToScrape input existing (ifo.getD now) limit = [] ∧ ifo.isSome = true) :
    mainModel (some input) existing now ifo limit fetch = none := by
  simp only [mainModel, if_pos hcond]

theorem mainModel_results_names (now : Timestamp) (fetch : Name → FetchResult) (r : PackageInfo)
    (l : List Name)
    (hr : r ∈ l.filterMap (fun n => fetch_package (fetch n) n now)) :
    r.name ∈ l ∧ fetch r.name ≠ .exn := by
  rcases List.mem_filterMap.mp hr with ⟨m, hm, hfm⟩
  have hname := (fetch_package_shape _ _ _ _ hfm).1
  subst hname
  refine ⟨hm, fun hexn => ?_⟩
  rw [hexn] at hfm
  exact Option.noConfusion hfm

/-! ### Claim theorems -/

/-- C1: the merge step is an unconditional per-name replace.  Every record
produced this run (the names are pairwise distinct, one outcome per item)
becomes, wholly, the store entry at its name — not a field-by-field union —
and every name for which no record was produced keeps its prior entry
unchanged. -/
theorem merge_is_per_name_replace (st : Store) (results : List PackageInfo)
    (hnd : (results.map PackageInfo.name).Nodup) :
    (∀ r ∈ results, mergeResults st results r.name = some r) ∧
    (∀ n : Name, (∀ r ∈ results, r.name ≠ n) → mergeResults st results n = st n) :=
  ⟨fun r hr => mergeResults_apply_mem results st r hr hnd,
   fun n hn => mergeResults_apply_not_mem results st n hn⟩

/-- C1 witness: a soft-failure record for `Y` (whose prior entry had
`total_installs = 500`) wholly replaces the entry — the merged entry is the
new record, whose `fail_reason` is set and whose install fields are absent —
while the untouched name `Z` keeps its prior (absent) entry. -/
theorem merge_is_per_name_replace_witness :
    mergeResults storeY [softY] "Y" = some softY ∧
    softY.fail_reason = some "HTTP 404" ∧ softY.total_installs = none ∧
    storeY "Y" = some recY ∧ recY.total_installs = some 500 ∧
    mergeResults storeY [softY] "Z" = storeY "Z" := by
  have h := merge_is_per_name_replace storeY [softY] (by simp)
  refine ⟨h.1 softY (List.mem_singleton.mpr rfl), rfl, rfl, rfl, rfl,
    h.2 "Z" ?_⟩
  intro r hr
  rw [List.mem_singleton.mp hr]
  decide

/-- C2: a transport-level failure (`fetch n = exn`, the request never
completed) produces no record for `n`, and whenever the run persists a store,
the persisted entry at `n` is exactly the prior entry. -/
theorem hard_failure_frame (input : List Name) (existing : Store) (now : Timestamp)
    (ifo : Option Timestamp) (limit : Option Int) (fetch : Name → FetchResult)
    (n : Name) (hexn : fetch n = .exn) (st' : Store)
    (hrun : mainModel (some input) existing now ifo limit fetch = some st') :
    fetch_package (fetch n) n now = none ∧ st' n = existing n := by
  refine ⟨by rw [hexn]; rfl, ?_⟩
  by_cases hc : selectToScrape input existing (ifo.getD now) limit = [] ∧ ifo.isSome = true
  · rw [mainModel_early_return input existing now ifo limit fetch hc] at hrun
    exact Option.noConfusion hrun
  · rw [mainModel_some input existing now ifo limit fetch hc] at hrun
    injection hrun with hrun
    subst hrun
    apply mergeResults_apply_not_mem
    intro r hr heq
    have := mainModel_results_names now fetch r _ hr
    rw [heq] at this
    exact this.2 hexn

/-- C2 witness: with registry `[A]`, a prior entry for `A`, no threshold and
a fetch that raises, the run persists a store whose entry at `A` is the prior
entry, and no record was produced. -/
theorem hard_failure_frame_witness :
    fetch_package ((fun _ => FetchResult.exn) "A") "A" "2025-10-12 00:00:00" = none ∧
    mergeResults storeRecentA [] "A" = storeRecentA "A" :=
  hard_failure_frame ["A"] storeRecentA "2025-10-12 00:00:00" none (some 20)
    (fun _ => .exn) "A" rfl (mergeResults storeRecentA []) rfl

/-- C3: a completed response with a status other than 200 produces exactly
the record `name`, `last_scraped = now` (the run's shared timestamp) and
`fail_reason = "HTTP <status>"`; every install-count field and `first_seen`
are absent (the remaining fields of the literal default to `none`). -/
theorem soft_failure_record (name : Name) (now : Timestamp) (status : Nat)
    (body : Document) (h : status ≠ 200) :
    fetch_package (.response status body) name now =
      some { name := name, last_scraped := now,
             fail_reason := some ("HTTP " ++ toString status) } := by
  simp [fetch_package, h]

/-- C3 witness: a 404 for `Foo` yields the bare soft-failure record. -/
theorem soft_failure_record_witness :
    fetch_package (.response 404 {}) "Foo" "2025-10-12 00:00:00" =
      some { name := "Foo", last_scraped := "2025-10-12 00:00:00",
             fail_reason := some ("HTTP " ++ toString 404) } :=
  soft_failure_record "Foo" "2025-10-12 00:00:00" 404 {} (by decide)

/-- C4 counterexample: a run whose registry loads successfully (`some ["A"]`)
but where a staleness threshold is given and zero items survive the cutoff
returns early WITHOUT reaching the persist step — refuting the claim that
every successful-registry run writes the store file. -/
theorem run_skips_persist_counterexample :
    mainModel (some ["A"]) storeRecentA "2025-10-12 00:00:00"
      (some "2020-01-01 00:00:00") (some 20) (fun _ => .exn) = none := rfl

/-- C4 amended: a registry-load failure terminates without writing; a
successful registry load reaches the persist step and writes the store even
when zero items are selected or every dispatched fetch hard-fails — except
that when a staleness threshold is supplied and zero items are selected, the
run returns early without writing. -/
theorem run_reaches_persist (existing : Store) (now : Timestamp)
    (ifo : Option Timestamp) (limit : Option Int) (fetch : Name → FetchResult) :
    mainModel none existing now ifo limit fetch = none ∧
    (∀ input : List Name, ifo = none →
      ∃ st', mainModel (some input) existing now ifo limit fetch = some st') ∧
    (∀ input : List Name,
      selectToScrape input existing (ifo.getD now) limit ≠ [] →
      ∃ st', mainModel (some input) existing now ifo limit fetch = some st') ∧
    (∀ input : List Name,
      selectToScrape input existing (ifo.getD now) limit = [] → ifo.isSome = true →
      mainModel (some input) existing now ifo limit fetch = none) := by
  refine ⟨rfl, ?_, ?_, ?_⟩
  · intro input hnone
    refine ⟨_, mainModel_some input existing now ifo limit fetch ?_⟩
    subst hnone
    exact fun hc => by simpa using hc.2
  · intro input hne
    exact ⟨_, mainModel_some input existing now ifo limit fetch (fun hc => hne hc.1)⟩
  · intro input hsel hsome
    exact mainModel_early_return input existing now ifo limit fetch ⟨hsel, hsome⟩

/-- C4 witness: with no threshold, an empty registry selection and a fetch
that always raises, the run still persists; and the early-return case fires
on the counterexample configuration. -/
theorem run_reaches_persist_witness :
    (∃ st', mainModel (some []) emptyStore "2025-10-12 00:00:00" none (some 20)
        (fun _ => FetchResult.exn) = some st') ∧
    mainModel (some ["A"]) storeRecentA "2025-10-12 00:00:00"
      (some "2020-01-01 00:00:00") (some 20) (fun _ => FetchResult.exn) = none := by
  have h1 := run_reaches_persist emptyStore "2025-10-12 00:00:00" none (some 20)
    (fun _ => FetchResult.exn)
  have h2 := run_reaches_persist storeRecentA "2025-10-12 00:00:00"
    (some "2020-01-01 00:00:00") (some 20) (fun _ => FetchResult.exn)
  exact ⟨h1.2.1 [] rfl, h2.2.2.2 ["A"] (by decide) rfl⟩

/-- C5 counterexample: with no threshold supplied, `main` still filters with
cutoff `now` (`now - timedelta(hours=0)`), so a record whose `last_scraped`
lies beyond the run timestamp is dropped from the selection — refuting "no
name is filtered out, whatever last_scraped values the records hold".  The
end-to-end run then leaves that entry untouched (it is never fetched). -/
theorem no_threshold_still_filters_counterexample :
    ("A" ∉ packages_sorted_by_age ["A"] storeFutureA
        ((none : Option Timestamp).getD "2025-10-12 00:00:00")) ∧
    Option.map (fun st => st "A")
        (mainModel (some ["A"]) storeFutureA "2025-10-12 00:00:00" none none
          (fun _ => .response 200 {})) =
      some (storeFutureA "A") := by
  exact ⟨by decide, rfl⟩

/-- C5 amended: when no threshold is supplied the cutoff is the run
timestamp itself, so a name is selected iff it is listed and its age key is
`<= now`; all never-scraped names qualify, but filtering by the age-key
comparison still occurs (names with a future `last_scraped` are dropped). -/
theorem no_threshold_selects_upto_now (input : List Name) (st : Store)
    (now : Timestamp) (n : Name) :
    (n ∈ input → tsLe (ageKey st n) now = true →
      n ∈ packages_sorted_by_age input st ((none : Option Timestamp).getD now)) ∧
    (n ∈ packages_sorted_by_age input st ((none : Option Timestamp).getD now) →
      n ∈ input ∧ tsLe (ageKey st n) now = true) := by
  simp only [Option.getD_none]
  exact ⟨fun h1 h2 => (mem_packages_sorted_by_age input st now n).mpr ⟨h1, h2⟩,
    fun h => (mem_packages_sorted_by_age input st now n).mp h⟩

/-- C5 witness: a never-scraped name is selected under no threshold. -/
theorem no_threshold_selects_upto_now_witness :
    "A" ∈ packages_sorted_by_age ["A"] emptyStore
      ((none : Option Timestamp).getD "2025-10-12 00:00:00") :=
  (no_threshold_selects_upto_now ["A"] emptyStore "2025-10-12 00:00:00" "A").1
    (by decide) (by decide)

/-- C6: the selected worklist is a subset of the input names, sorted
non-decreasing by effective age key (stored `last_scraped`, else the epoch
sentinel), truncated to a nonnegative budget, and every name absent from the
store is positioned before any name whose record carries a post-epoch
timestamp. -/
theorem selector_contract (input : List Name) (st : Store) (cutoff : Timestamp)
    (limit : Option Int) :
    (∀ n ∈ selectToScrape input st cutoff limit, n ∈ input) ∧
    (selectToScrape input st cutoff limit).Sorted
      (fun a b => tsLe (ageKey st a) (ageKey st b) = true) ∧
    (∀ k : Int, 0 ≤ k → (selectToScrape input st cutoff (some k)).length ≤ k.toNat) ∧
    (∀ i j : Fin (selectToScrape input st cutoff limit).length,
      st ((selectToScrape input st cutoff limit).get i) = none →
      tsLe (ageKey st ((selectToScrape input st cutoff limit).get j)) epochSentinel = false →
      (i : Nat) < (j : Nat)) := by
  have hsorted : (selectToScrape input st cutoff limit).Sorted
      (fun a b => tsLe (ageKey st a) (ageKey st b) = true) :=
    List.Pairwise.sublist (selectToScrape_sublist input st cutoff limit)
      (sorted_packages_sorted_by_age input st cutoff)
  refine ⟨?_, hsorted, ?_, ?_⟩
  · intro n hn
    have hmem : n ∈ packages_sorted_by_age input st cutoff :=
      (selectToScrape_sublist input st cutoff limit).mem hn
    exact ((mem_packages_sorted_by_age input st cutoff n).mp hmem).1
  · intro k hk
    simp only [selectToScrape, pySliceTo, if_pos hk]
    exact List.length_take_le _ _
  · intro i j hi hj
    by_contra hij
    push_neg at hij
    have hkey_i : ageKey st ((selectToScrape input st cutoff limit).get i) =
        epochSentinel := by unfold ageKey; rw [hi]
    rcases Nat.eq_or_lt_of_le hij with hji | hji
    · have : j = i := Fin.ext hji
      subst this
      rw [hkey_i] at hj
      exact Bool.noConfusion (hj ▸ tsLe_refl epochSentinel)
    · have := hsorted.rel_get_of_lt (show j < i from hji)
      rw [hkey_i] at this
      rw [this] at hj
      exact Bool.noConfusion hj

/-- C6 witness: on registry `[B, A]` with a store holding only a real
timestamp for `B`, the never-seen `A` sits at position 0, before `B` at
position 1; the budget bound evaluates on budget 1. -/
theorem selector_contract_witness :
    ("A" : Name) ∈ (["B", "A"] : List Name) ∧
    (selectToScrape ["B", "A"] storeB "2025-10-12 00:00:00" (some 1)).length ≤
      (1 : Int).toNat ∧
    (0 : Nat) < (1 : Nat) := by
  have h := selector_contract ["B", "A"] storeB "2025-10-12 00:00:00" none
  exact ⟨h.1 "A" (by decide), h.2.2.1 1 (by decide),
    h.2.2.2 ⟨0, by decide⟩ ⟨1, by decide⟩ (by decide) (by decide)⟩

/-- C7: ties in the age key preserve input order (Python's `sorted` is
stable): a pair of names appearing in input order with equal age keys, both
passing the cutoff, appears in the same order in the selector output.  In
particular for registry `[A, B]`, empty prior store, budget 1 and no
threshold, exactly `A` is selected, and the output store still has no entry
for `B` while `A` maps to the fresh success record. -/
theorem selector_stable_tiebreak (input : List Name) (st : Store)
    (cutoff : Timestamp) (a b : Name) (hsub : List.Sublist [a, b] input)
    (heq : ageKey st a = ageKey st b)
    (ha : tsLe (ageKey st a) cutoff = true) (hb : tsLe (ageKey st b) cutoff = true) :
    List.Sublist [a, b] (packages_sorted_by_age input st cutoff) ∧
    selectToScrape ["A", "B"] emptyStore "2025-10-12 00:00:00" (some 1) = ["A"] ∧
    (∀ st', mainModel (some ["A", "B"]) emptyStore "2025-10-12 00:00:00" none (some 1)
        (fun _ => .response 200 {}) = some st' →
      st' "B" = none ∧
      st' "A" = some { name := "A", first_seen := some none,
                       last_scraped := "2025-10-12 00:00:00" }) := by
  refine ⟨?_, by decide, ?_⟩
  · have hfil := hsub.filter (fun n => tsLe (ageKey st n) cutoff)
    have heqf : List.filter (fun n => tsLe (ageKey st n) cutoff) [a, b] = [a, b] := by
      simp [List.filter, ha, hb]
    rw [heqf] at hfil
    have hr : tsLe (ageKey st a) (ageKey st b) = true := by
      rw [heq]; exact tsLe_refl _
    simp only [packages_sorted_by_age]
    exact List.pair_sublist_insertionSort hr hfil
  · intro st' h
    have h2 : some (mergeResults emptyStore
        [{ name := "A", first_seen := some none,
           last_scraped := "2025-10-12 00:00:00" }]) = some st' := h
    injection h2 with h2
    subst h2
    exact ⟨rfl, rfl⟩

/-- C7 witness: with equal (never-seen) age keys, `A` and `B` keep their
input order in the sorted output, and budget 1 selects exactly `A`. -/
theorem selector_stable_tiebreak_witness :
    List.Sublist ["A", "B"]
      (packages_sorted_by_age ["A", "B"] emptyStore "2025-10-12 00:00:00") ∧
    selectToScrape ["A", "B"] emptyStore "2025-10-12 00:00:00" (some 1) = ["A"] := by
  have h := selector_stable_tiebreak ["A", "B"] emptyStore "2025-10-12 00:00:00"
    "A" "B" (List.Sublist.refl _) rfl (by decide) (by decide)
  exact ⟨h.1, h.2.1⟩

/-- C8: `first_seen` extraction replaces the `T` separator by a space and
strips the trailing `Z` (`"2025-05-07T18:00:05Z"` becomes
`"2025-05-07 18:00:05"`); a missing `title` attribute or a missing node
yields a null `first_seen` in the success record, with no error. -/
theorem first_seen_normalization :
    parse_first_seen { title := some "2025-05-07T18:00:05Z" } =
      some "2025-05-07 18:00:05" ∧
    parse_first_seen { title := none } = none ∧
    fetch_package (.response 200 { first_seen_span := some { title := none } })
        "X" "2025-10-12 00:00:00" =
      some { name := "X", first_seen := some none,
             last_scraped := "2025-10-12 00:00:00" } ∧
    fetch_package (.response 200 {}) "X" "2025-10-12 00:00:00" =
      some { name := "X", first_seen := some none,
             last_scraped := "2025-10-12 00:00:00" } :=
  ⟨by decide, rfl, rfl, rfl⟩

/-- C9: install extraction on entries `Total=1,234`, `Win=900` and the
unrecognized label `Linux-beta=5` yields `total_installs = 1234`,
`win_installs = 900` and no `mac`/`linux` fields; an entry with an
unrecognized label changes nothing, and a counter whose numeric attribute
fails to parse behaves as count 0. -/
theorem installs_extraction :
    parse_installs
        [{ label_text := some "Total", sibling_title := some (some "1,234") },
         { label_text := some "Win", sibling_title := some (some "900") },
         { label_text := some "Linux-beta", sibling_title := some (some "5") }] =
      { total_installs := some 1234, win_installs := some 900 } ∧
    (∀ (acc : Installs) (e : InstallEntry) (raw : String),
      e.label_text = some raw →
      pyStrip raw ∉ (["Total", "Win", "Mac", "Linux"] : List String) →
      parse_installs_step acc e = acc) ∧
    (∀ (acc : Installs) (raw : String) (titleAttr : Option String),
      pyInt? (replaceChar (titleAttr.getD "0") ',' "") = none →
      parse_installs_step acc { label_text := some raw, sibling_title := some titleAttr } =
        parse_installs_step acc { label_text := some raw, sibling_title := some (some "0") }) := by
  refine ⟨by decide, ?_, ?_⟩
  · intro acc e raw hlab hnot
    simp only [List.mem_cons, List.not_mem_nil, or_false, not_or] at hnot
    obtain ⟨h1, h2, h3, h4⟩ := hnot
    obtain ⟨lt, sib⟩ := e
    have hl : lt = some raw := hlab
    subst hl
    cases sib with
    | none => rfl
    | some t => simp [parse_installs_step, h1, h2, h3, h4]
  · intro acc raw titleAttr hfail
    have h0 : (pyInt? (replaceChar "0" ',' "")).getD 0 = (0 : Int) := by decide
    simp [parse_installs_step, hfail, h0]

/-- C9 witness: the unrecognized label `Linux-beta` contributes nothing, and
an unparsable counter attribute `n/a` behaves as the literal `"0"`. -/
theorem installs_extraction_witness :
    parse_installs_step {} { label_text := some "Linux-beta",
                             sibling_title := some (some "5") } = {} ∧
    parse_installs_step {} { label_text := some "Total",
                             sibling_title := some (some "n/a") } =
      parse_installs_step {} { label_text := some "Total",
                               sibling_title := some (some "0") } := by
  have h := installs_extraction
  exact ⟨h.2.1 {} _ "Linux-beta" rfl (by decide), h.2.2 {} "Total" (some "n/a") (by decide)⟩

/-- C10: every record `fetch_package` produces carries the run's shared
timestamp as `last_scraped`; a record with `fail_reason` has no `first_seen`
and no install fields; a record without `fail_reason` is a success record
(it always carries a `first_seen` key); and merging a record wholly replaces
the entry at its name, so a success over a prior soft failure clears the
stored `fail_reason`. -/
theorem produced_record_invariants (resp : FetchResult) (name : Name)
    (now : Timestamp) (r : PackageInfo) (h : fetch_package resp name now = some r) :
    r.name = name ∧ r.last_scraped = now ∧
    (r.fail_reason.isSome = true →
      r.first_seen = none ∧ r.total_installs = none ∧ r.win_installs = none ∧
      r.mac_installs = none ∧ r.linux_installs = none) ∧
    (r.fail_reason = none → r.first_seen.isSome = true) ∧
    (∀ st : Store, mergeOne st r r.name = some r) := by
  obtain ⟨h1, h2, h3⟩ := fetch_package_shape resp name now r h
  refine ⟨h1, h2, ?_, ?_, fun st => by simp [mergeOne]⟩
  · intro hfail
    rcases h3 with ⟨hnone, _⟩ | hsoft
    · rw [hnone] at hfail
      exact Bool.noConfusion hfail
    · exact ⟨hsoft.2.1, hsoft.2.2.1, hsoft.2.2.2.1, hsoft.2.2.2.2.1, hsoft.2.2.2.2.2⟩
  · intro hnone
    rcases h3 with ⟨_, hfs⟩ | hsoft
    · exact hfs
    · rw [hnone] at hsoft
      simpa using hsoft.1

/-- C10 witness: the 404 soft-failure record for `Y` carries the run
timestamp, has no `first_seen` and no install fields, and wholly replaces
the prior entry for `Y`. -/
theorem produced_record_invariants_witness :
    softY.name = "Y" ∧ softY.last_scraped = "2025-10-12 00:00:00" ∧
    softY.first_seen = none ∧ softY.total_installs = none ∧
    mergeOne storeY softY "Y" = some softY := by
  have h := produced_record_invariants (.response 404 {}) "Y"
    "2025-10-12 00:00:00" softY rfl
  exact ⟨h.1, h.2.1, (h.2.2.1 rfl).1, (h.2.2.1 rfl).2.1, h.2.2.2.2 storeY⟩

end Scrape
